import Mathlib

/-!
# Verification of the SCICO ADMM core and the ASTRA Radon wrapper

This file gives a shallow embedding of the parts of the `scico` repository
that the examined claims are about:

* the ADMM driver and its subproblem-solver hierarchy.  The implementation
  modules `_admm.py` and `_admmaux.py` are not part of the provided sources
  (only the re-export module `scico/optimize/admm.py` is), so the driver and
  the solvers are modelled from the specification text, as indicated on each
  definition.
* the device-selection and shape logic of
  `scico/linop/radon_astra.py` (`TomographicProjector.__init__`), which is
  part of the provided sources and is embedded directly from the code.

Arrays are modelled by an abstract type `V` carrying the algebraic
operations the spec uses (`+`, `-`, `0`); scalars are `ℚ` so that every
definition is executable.
-/

namespace Scico

/-- Modelled from the spec (§2, §6): an abstract linear operator with a
forward and an adjoint evaluation.  The ADMM core consumes these through a
fixed interface and does not implement them. -/
structure LinearOperator (V : Type) where
  forward : V → V
  adjoint : V → V

/-- Modelled from the spec (§6): a functional with an evaluation map and a
proximal operator `prox(v, step_size)`. -/
structure Functional (V : Type) where
  evaluate : V → ℚ
  prox : V → ℚ → V

/-- Modelled from the spec (§3): a constraint block, pairing a linear
operator `C_i` with a penalty functional `g_i`, defining a term
`g_i(C_i x)` in the objective. -/
structure ConstraintBlock (V : Type) where
  C : LinearOperator V
  g : Functional V

/-- Modelled from the spec (§3, §6): the penalty parameter `rho`, a scalar
or one value per block. -/
inductive Rho where
  | scalar (q : ℚ)
  | perblock (l : List ℚ)

/-- Strict positivity of the penalty parameter: the scalar, or every
per-block entry, is strictly positive. -/
def Rho.positive : Rho → Prop
  | Rho.scalar q => 0 < q
  | Rho.perblock l => ∀ q ∈ l, 0 < q

instance (r : Rho) : Decidable r.positive := by
  cases r with
  | scalar q => exact inferInstanceAs (Decidable (0 < q))
  | perblock l => exact inferInstanceAs (Decidable (∀ q ∈ l, 0 < q))

/-- Whether the penalty is block-structured (one value per block). -/
def Rho.blockStructured : Rho → Bool
  | Rho.scalar _ => false
  | Rho.perblock _ => true

/-- The penalty value used for block `i` (a scalar penalty applies to every
block). -/
def Rho.entry : Rho → Nat → ℚ
  | Rho.scalar q, _ => q
  | Rho.perblock l, i => l.getD i 1

/-- Modelled from the spec (§9, §4.2): the subproblem-solver hierarchy is a
closed set of five variants under one shared base. -/
inductive SubproblemSolverKind where
  | generic
  | linear
  | circularConvolve
  | fBlockCircularConvolve
  | g0BlockCircularConvolve
  deriving DecidableEq

/-- The five variants of the hierarchy. -/
def subproblemSolverKinds : List SubproblemSolverKind :=
  [SubproblemSolverKind.generic, SubproblemSolverKind.linear,
   SubproblemSolverKind.circularConvolve,
   SubproblemSolverKind.fBlockCircularConvolve,
   SubproblemSolverKind.g0BlockCircularConvolve]

/-- The public class name of each variant, as exported by
`scico/optimize/admm.py`. -/
def SubproblemSolverKind.exportName : SubproblemSolverKind → String
  | SubproblemSolverKind.generic => "GenericSubproblemSolver"
  | SubproblemSolverKind.linear => "LinearSubproblemSolver"
  | SubproblemSolverKind.circularConvolve => "CircularConvolveSolver"
  | SubproblemSolverKind.fBlockCircularConvolve => "FBlockCircularConvolveSolver"
  | SubproblemSolverKind.g0BlockCircularConvolve => "G0BlockCircularConvolveSolver"

/-- Modelled from the spec (§4.2): a subproblem solver is one of the five
variants together with its single entry point
`solve(x_current, target_blocks, rho) → x_new`. -/
structure SubproblemSolver (V : Type) where
  kind : SubproblemSolverKind
  solve : V → List V → Rho → V

/-- Transcribed from `src/scico/optimize/admm.py` (`__all__`): the names the
ADMM module exports publicly. -/
def admm_all : List String :=
  ["SubproblemSolver",
   "GenericSubproblemSolver",
   "LinearSubproblemSolver",
   "CircularConvolveSolver",
   "FBlockCircularConvolveSolver",
   "G0BlockCircularConvolveSolver",
   "ADMM"]

/-- Modelled from the spec (§3): the evolving solution state: primal `x`,
auxiliary blocks `z_i`, scaled duals `u_i`. -/
structure Iterate (V : Type) where
  x : V
  z : List V
  u : List V

/-- Modelled from the spec (§3, §6): one per-iteration diagnostics record. -/
structure HistoryRecord where
  iteration : Nat
  primal_residual : ℚ
  dual_residual : ℚ

/-- Modelled from the spec (§7): the errors raised at construction. -/
inductive ConfigurationError where
  | emptyBlocks
  | nonPositiveRho
  | shapeMismatch
  deriving DecidableEq

/-- An array shape, used only for the construction-time shape check. -/
abbrev ArrayShape := List Nat

/-- Modelled from the spec (§6): the configuration handed to the driver
constructor. -/
structure Configuration (V : Type) where
  f : Functional V
  fDomainShape : ArrayShape
  blocks : List (ConstraintBlock V)
  rho : Rho
  x0 : V
  x0Shape : ArrayShape
  solver : SubproblemSolver V
  maxiter : Nat
  callback : Option (Iterate V → Bool)
  norm : V → ℚ

/-- Modelled from the spec (§3, §4.1): the ADMM driver state: the fixed
problem data, the mutable `Iterate`, the append-only history and the
iteration counter. -/
structure ADMM (V : Type) where
  f : Functional V
  blocks : List (ConstraintBlock V)
  rho : Rho
  solver : SubproblemSolver V
  maxiter : Nat
  callback : Option (Iterate V → Bool)
  norm : V → ℚ
  it : Iterate V
  history : List HistoryRecord
  iteration : Nat

/-- The constraint operators of the driver, one per block. -/
def ADMM.constraintOperators {V : Type} (d : ADMM V) : List (LinearOperator V) :=
  d.blocks.map (fun b => b.C)

/-- The penalty functionals of the driver, one per block. -/
def ADMM.penaltyFunctionals {V : Type} (d : ADMM V) : List (Functional V) :=
  d.blocks.map (fun b => b.g)

/-- Modelled from the spec (§4.1): the driver state built by a successful
construction: `z_i = C_i x0`, `u_i = 0`, an empty history and a zero
iteration counter. -/
def initialADMM {V : Type} [Zero V] (c : Configuration V) : ADMM V :=
  { f := c.f
    blocks := c.blocks
    rho := c.rho
    solver := c.solver
    maxiter := c.maxiter
    callback := c.callback
    norm := c.norm
    it :=
      { x := c.x0
        z := c.blocks.map (fun b => b.C.forward c.x0)
        u := c.blocks.map (fun _ => (0 : V)) }
    history := []
    iteration := 0 }

/-- Modelled from the spec (§4.1, §7): driver construction.  Validates
`len(constraint_blocks) ≥ 1`, strict positivity of `rho`, and — when the
penalty is block-structured — that the `x0` shape matches the input domain
of `f`; on success initializes `z_i = C_i x0`, `u_i = 0`, an empty history
and a zero iteration counter. -/
def construct {V : Type} [Zero V] (c : Configuration V) :
    Except ConfigurationError (ADMM V) :=
  if c.blocks.length < 1 then Except.error ConfigurationError.emptyBlocks
  else if ¬ c.rho.positive then Except.error ConfigurationError.nonPositiveRho
  else if c.rho.blockStructured = true ∧ c.x0Shape ≠ c.fDomainShape then
    Except.error ConfigurationError.shapeMismatch
  else
    Except.ok (initialADMM c)

/-- A throwaway block used only as the default of `List.getD`; the length
invariant keeps it from ever being selected. -/
def defaultBlock {V : Type} : ConstraintBlock V :=
  { C := { forward := fun v => v, adjoint := fun v => v }
    g := { evaluate := fun _ => 0, prox := fun v _ => v } }

/-- Modelled from the spec (§4.1 `step()`): one full x/z/u update cycle.
The x-update is delegated to the subproblem solver on the targets
`z_i - u_i`; the z-update applies each proximal operator at `C_i x + u_i`;
the u-update is `u_i + C_i x - z_i`; one history record with the primal and
dual residual norms is appended and the iteration counter is incremented. -/
def ADMM.step {V : Type} [Add V] [Sub V] [Zero V] (d : ADMM V) : ADMM V :=
  let n := d.blocks.length
  let targets := (List.range n).map (fun i => d.it.z.getD i 0 - d.it.u.getD i 0)
  let x1 := d.solver.solve d.it.x targets d.rho
  let z1 := (List.range n).map (fun i =>
    let b := d.blocks.getD i defaultBlock
    b.g.prox (b.C.forward x1 + d.it.u.getD i 0) (1 / d.rho.entry i))
  let u1 := (List.range n).map (fun i =>
    let b := d.blocks.getD i defaultBlock
    d.it.u.getD i 0 + b.C.forward x1 - z1.getD i 0)
  let primal := ((List.range n).map (fun i =>
    let b := d.blocks.getD i defaultBlock
    d.norm (b.C.forward x1 - z1.getD i 0))).sum
  let dual := ((List.range n).map (fun i =>
    let b := d.blocks.getD i defaultBlock
    d.rho.entry i * d.norm (b.C.adjoint (z1.getD i 0 - d.it.z.getD i 0)))).sum
  { d with
    it := { x := x1, z := z1, u := u1 }
    history := d.history ++
      [{ iteration := d.iteration + 1
         primal_residual := primal
         dual_residual := dual }]
    iteration := d.iteration + 1 }

/-- Modelled from the spec (§8): `run(n)` loops `step()` internally `n`
times. -/
def ADMM.run {V : Type} [Add V] [Sub V] [Zero V] : ADMM V → Nat → ADMM V
  | d, 0 => d
  | d, Nat.succ n => ADMM.run d.step n

/-- Modelled from the spec (§4.1 `solve()`): the iteration body used inside
`solve`: one `step()`, then — when a callback is provided — one callback
invocation whose boolean result is discarded.  Returns the new state and
the number of callback invocations made (0 or 1). -/
def ADMM.solveStep {V : Type} [Add V] [Sub V] [Zero V] (d : ADMM V) :
    ADMM V × Nat :=
  let d1 := d.step
  match d1.callback with
  | none => (d1, 0)
  | some cb =>
    let _r := cb d1.it
    (d1, 1)

/-- The internal loop of `solve`: repeats `solveStep` a given number of
times, accumulating the callback-invocation count. -/
def ADMM.solveLoop {V : Type} [Add V] [Sub V] [Zero V] :
    ADMM V → Nat → ADMM V × Nat
  | d, 0 => (d, 0)
  | d, Nat.succ n =>
    let p := d.solveStep
    let q := ADMM.solveLoop p.1 n
    (q.1, p.2 + q.2)

/-- Modelled from the spec (§4.1): `solve()` repeatedly invokes `step()`
until the iteration count reaches `maxiter`; termination is a pure
iteration-count gate.  Returns the final driver state and the total number
of callback invocations. -/
def ADMM.solveFull {V : Type} [Add V] [Sub V] [Zero V] (d : ADMM V) :
    ADMM V × Nat :=
  ADMM.solveLoop d d.maxiter

/-- The value returned by `solve()`: the final primal variable `x`. -/
def ADMM.solveResult {V : Type} [Add V] [Sub V] [Zero V] (d : ADMM V) : V :=
  d.solveFull.1.it.x

/-- The same driver with the callback replaced. -/
def ADMM.withCallback {V : Type} (d : ADMM V)
    (cb : Option (Iterate V → Bool)) : ADMM V :=
  { d with callback := cb }

/-- The length invariant of the iterate (spec §3):
`len(z) == len(u) == len(constraint_operators) == len(penalty_functionals)`. -/
def ADMM.lengthInvariant {V : Type} (d : ADMM V) : Prop :=
  d.it.z.length = d.constraintOperators.length ∧
  d.it.u.length = d.constraintOperators.length ∧
  d.penaltyFunctionals.length = d.constraintOperators.length

/-! ### Concrete instances used by the witness theorems

A one-dimensional problem over `ℚ`: all operators and functionals are
explicit executable functions. -/

/-- A concrete linear operator on `ℚ` (multiplication by two). -/
def wOp : LinearOperator ℚ :=
  { forward := fun v => 2 * v, adjoint := fun v => 2 * v }

/-- A concrete penalty functional on `ℚ`. -/
def wFun : Functional ℚ :=
  { evaluate := fun v => |v|, prox := fun v s => v - s }

/-- A concrete constraint block on `ℚ`. -/
def wBlockQ : ConstraintBlock ℚ := { C := wOp, g := wFun }

/-- A concrete subproblem solver on `ℚ`. -/
def wSolver : SubproblemSolver ℚ :=
  { kind := SubproblemSolverKind.linear
    solve := fun x ts _ => x + ts.sum }

/-- A concrete valid configuration on `ℚ`. -/
def wCfg : Configuration ℚ :=
  { f := { evaluate := fun v => v * v, prox := fun v _ => v }
    fDomainShape := [8]
    blocks := [wBlockQ]
    rho := Rho.scalar 1
    x0 := 3
    x0Shape := [8]
    solver := wSolver
    maxiter := 2
    callback := some (fun _ => true)
    norm := fun q => |q| }

/-- The driver built from `wCfg`. -/
def wADMM : ADMM ℚ := initialADMM wCfg

/-- The configuration `wCfg` with `maxiter = 0`. -/
def wCfg0 : Configuration ℚ := { wCfg with maxiter := 0 }

/-- The driver built from `wCfg0`. -/
def wADMM0 : ADMM ℚ := initialADMM wCfg0

/-- A configuration with a scalar penalty whose `x0` shape does not match
the `f` domain shape: construction still succeeds, because the spec only
requires the shape check for a block-structured penalty. -/
def c4Cfg : Configuration ℚ := { wCfg with x0Shape := [2], fDomainShape := [3] }

namespace RadonAstra

/-! ### Embedding of `src/scico/linop/radon_astra.py`

`TomographicProjector.__init__` is embedded up to the opaque ASTRA calls:
the volume-geometry validation, the projector/device selection (source
lines 109-115) and the `LinearOperator` metadata passed to the superclass
constructor (source lines 123-130).  `platform` stands for
`jax.devices()[0].platform`, an external input. -/

/-- The two ASTRA projector kinds the source can create: `"line"` (CPU)
and `"cuda"` (GPU). -/
inductive AstraProjectorKind where
  | line
  | cuda
  deriving DecidableEq

/-- The `ValueError`s `__init__` can raise: the malformed
`volume_geometry` error (source lines 101-105) and the invalid-device
error (source line 115). -/
inductive RadonError where
  | volumeGeometryValueError
  | invalidDevice (device : String)
  deriving DecidableEq

/-- Element dtypes relevant to the constructor. -/
inductive DType where
  | float32
  | float64
  deriving DecidableEq

/-- The attributes of a successfully constructed `TomographicProjector`
that the claims are about. -/
structure TomographicProjector where
  detector_spacing : ℚ
  det_count : Nat
  angles : List ℚ
  input_shape : List Nat
  proj_kind : AstraProjectorKind
  output_shape : Nat × Nat
  input_dtype : DType
  output_dtype : DType

/-- Source lines 109-115: the projector selection.
`if dev0.platform == "cpu" or device == "cpu": line`
`elif dev0.platform == "gpu" and device in ["gpu", "auto"]: cuda`
`else: raise ValueError(f"Invalid device specified; got {device}.")` -/
def selectProjector (platform device : String) :
    Except RadonError AstraProjectorKind :=
  if platform = "cpu" ∨ device = "cpu" then Except.ok AstraProjectorKind.line
  else if platform = "gpu" ∧ (device = "gpu" ∨ device = "auto") then
    Except.ok AstraProjectorKind.cuda
  else Except.error (RadonError.invalidDevice device)

/-- Source lines 97-107: `volume_geometry` must be `None` or of length 4. -/
def volumeGeometryCheck (volume_geometry : Option (List ℚ)) :
    Except RadonError Unit :=
  match volume_geometry with
  | some vg =>
    if vg.length = 4 then Except.ok ()
    else Except.error RadonError.volumeGeometryValueError
  | none => Except.ok ()

/-- The control flow of `TomographicProjector.__init__`: the
volume-geometry check (lines 97-107), then the device selection (lines
109-115), then the superclass construction with
`output_shape = (len(angles), det_count)` and `float32` dtypes (lines
123-130). -/
def tomographicProjectorInit (platform : String) (input_shape : List Nat)
    (detector_spacing : ℚ) (det_count : Nat) (angles : List ℚ)
    (volume_geometry : Option (List ℚ)) (device : String) :
    Except RadonError TomographicProjector :=
  match volumeGeometryCheck volume_geometry with
  | Except.error e => Except.error e
  | Except.ok _ =>
    match selectProjector platform device with
    | Except.error e => Except.error e
    | Except.ok pk =>
      Except.ok
        { detector_spacing := detector_spacing
          det_count := det_count
          angles := angles
          input_shape := input_shape
          proj_kind := pk
          output_shape := (angles.length, det_count)
          input_dtype := DType.float32
          output_dtype := DType.float32 }

/-- Whether a constructor outcome is the invalid-device `ValueError`. -/
def isInvalidDeviceError {α : Type} : Except RadonError α → Bool
  | Except.error (RadonError.invalidDevice _) => true
  | _ => false

/-- A concrete projector record, used by the witness theorem. -/
def tpW : TomographicProjector :=
  { detector_spacing := 1
    det_count := 5
    angles := [0, 1, 2]
    input_shape := [4, 4]
    proj_kind := AstraProjectorKind.line
    output_shape := (3, 5)
    input_dtype := DType.float32
    output_dtype := DType.float32 }

end RadonAstra

namespace CircConv

/-! ### Exact-arithmetic model of the two x-update solvers (claim C7)

Modelled from the spec (§4.2): signals of length `n` are functions
`ZMod n → R` over a field `R`; the circulant constraint operator is
circular convolution by a kernel `c`.  The discrete Fourier transform is
taken with respect to an explicit multiplicative character `e` (standing
for `j ↦ exp(2πij/n)`) and an explicit inverse `ninv` of `n` in `R`, so
that every definition is executable.  The `Linear` direct-factorization
solver solves the normal equations `A x = b`,
`A = 2∇²f + rho·Cᵀ·C` (with the Hessian contribution modelled as `alpha·I`),
by an exact direct method (Cramer), failing like `LinAlgError` when `A` is
singular; the `CircularConvolveSolver` transforms `b`, divides by the
frequency diagonal `alpha + rho·|ĉ|²` and transforms back.  For a real
kernel, `|ĉ(k)|²` is `ĉ(-k)·ĉ(k)`, which is how the modulus squared is
expressed in a general field. -/

variable {n : ℕ} [NeZero n] {R : Type} [Field R]

/-- The discrete Fourier transform of `Φ` with respect to the character
`e`. -/
def dftE (e : ZMod n → R) (Φ : ZMod n → R) (k : ZMod n) : R :=
  ∑ j : ZMod n, e (j * k) * Φ j

/-- The inverse discrete Fourier transform with respect to `e`, with
`ninv` the inverse of `n` in `R`. -/
def idftE (e : ZMod n → R) (ninv : R) (Ψ : ZMod n → R) (j : ZMod n) : R :=
  ninv * ∑ k : ZMod n, e (-(j * k)) * Ψ k

/-- Circular convolution by the kernel `c`. -/
def cconv (c x : ZMod n → R) (j : ZMod n) : R :=
  ∑ k : ZMod n, c (j - k) * x k

/-- The kernel of the transposed circulant operator. -/
def reverseKernel (c : ZMod n → R) (j : ZMod n) : R := c (-j)

/-- The normal-equations operator `A = alpha·I + rho·CᵀC` of the spec
(§4.2, `Linear` row), for the circulant operator `C` of kernel `c`. -/
def Amat (alpha rho : R) (c : ZMod n → R) : Matrix (ZMod n) (ZMod n) R :=
  alpha • (1 : Matrix (ZMod n) (ZMod n) R) +
    rho • ((Matrix.circulant c).transpose * Matrix.circulant c)

/-- The precomputed frequency diagonal `alpha + rho·|ĉ|²` of the spec
(§4.2, `CircularConvolveSolver` row). -/
def freqDiagonal (e : ZMod n → R) (alpha rho : R) (c : ZMod n → R)
    (k : ZMod n) : R :=
  alpha + rho * (dftE e (reverseKernel c) k * dftE e c k)

/-- The right-hand side `b = rho·Cᵀt` of the normal equations built from
the target `t` (the block `z - u`). -/
def targetRHS (rho : R) (c t : ZMod n → R) : ZMod n → R :=
  fun j => rho * cconv (reverseKernel c) t j

/-- Modelled from the spec (§4.2): the `CircularConvolveSolver` x-update:
transform `b`, divide elementwise by the frequency diagonal, inverse
transform. -/
def circularConvolveSolve (e : ZMod n → R) (ninv alpha rho : R)
    (c t : ZMod n → R) : ZMod n → R :=
  idftE e ninv
    (fun k => (freqDiagonal e alpha rho c k)⁻¹ * dftE e (targetRHS rho c t) k)

/-- Modelled from the spec (§4.2, §7): the `Linear` direct-factorization
x-update: solve `A x = b` exactly by a direct method; `none` models the
fatal `LinAlgError` on a singular system. -/
def linearDirectSolve [DecidableEq R] (alpha rho : R) (c t : ZMod n → R) :
    Option (ZMod n → R) :=
  if (Amat alpha rho c).det = 0 then none
  else
    some (((Amat alpha rho c).det)⁻¹ •
      Matrix.cramer (Amat alpha rho c) (targetRHS rho c t))

/-- The circulant matrix whose symbol is the inverse of the frequency
diagonal; it is the two-sided inverse of `Amat` used to show the direct
solve is well posed. -/
def freqInverseMat (e : ZMod n → R) (ninv alpha rho : R) (c : ZMod n → R) :
    Matrix (ZMod n) (ZMod n) R :=
  Matrix.circulant
    (idftE e ninv (fun k => (freqDiagonal e alpha rho c k)⁻¹))

instance : Fact (Nat.Prime 17) := ⟨by norm_num⟩

/-- The concrete character used by the witness: the primitive fourth root
`4` in `ZMod 17`. -/
def wE : ZMod 4 → ZMod 17 := fun t => (4 : ZMod 17) ^ t.val

/-- A concrete convolution kernel for the witness. -/
def wC7c : ZMod 4 → ZMod 17 :=
  fun j => if j = 0 then 1 else if j = 1 then 2 else 0

/-- A concrete target block for the witness. -/
def wC7t : ZMod 4 → ZMod 17 := fun j => (j.val : ZMod 17)

end CircConv

lemma construct_ok {V : Type} [Zero V] {c : Configuration V} {d : ADMM V}
    (h : construct c = Except.ok d) : d = initialADMM c := by
  unfold construct at h
  split at h
  · exact Except.noConfusion h
  · split at h
    · exact Except.noConfusion h
    · split at h
      · exact Except.noConfusion h
      · exact (Except.ok.inj h).symm

section ADMMLemmas

variable {V : Type} [Add V] [Sub V] [Zero V]

lemma step_blocks (d : ADMM V) : d.step.blocks = d.blocks := rfl

lemma step_callback (d : ADMM V) : d.step.callback = d.callback := rfl

lemma step_maxiter (d : ADMM V) : d.step.maxiter = d.maxiter := rfl

lemma step_iteration (d : ADMM V) : d.step.iteration = d.iteration + 1 := rfl

lemma step_history_length (d : ADMM V) :
    d.step.history.length = d.history.length + 1 := by
  simp [ADMM.step]

lemma run_eq_iterate : ∀ (n : Nat) (d : ADMM V),
    d.run n = Nat.iterate ADMM.step n d := by
  intro n
  induction n with
  | zero => intro d; rfl
  | succ n ih =>
    intro d
    show d.step.run n = Nat.iterate ADMM.step (n + 1) d
    rw [ih d.step, Function.iterate_succ_apply]

lemma run_history_length : ∀ (n : Nat) (d : ADMM V),
    (d.run n).history.length = d.history.length + n := by
  intro n
  induction n with
  | zero => intro d; rfl
  | succ n ih =>
    intro d
    show (d.step.run n).history.length = d.history.length + (n + 1)
    rw [ih d.step, step_history_length]
    omega

lemma run_iteration : ∀ (n : Nat) (d : ADMM V),
    (d.run n).iteration = d.iteration + n := by
  intro n
  induction n with
  | zero => intro d; rfl
  | succ n ih =>
    intro d
    show (d.step.run n).iteration = d.iteration + (n + 1)
    rw [ih d.step, step_iteration]
    omega

lemma solveStep_fst (d : ADMM V) : d.solveStep.1 = d.step := by
  rcases h : d.step.callback with _ | cb <;> simp [ADMM.solveStep, h]

lemma solveStep_snd_none (d : ADMM V) (h : d.callback = none) :
    d.solveStep.2 = 0 := by
  have h2 : d.step.callback = none := by rw [step_callback, h]
  simp [ADMM.solveStep, h2]

lemma solveStep_snd_some (d : ADMM V) {cb : Iterate V → Bool}
    (h : d.callback = some cb) : d.solveStep.2 = 1 := by
  have h2 : d.step.callback = some cb := by rw [step_callback, h]
  simp [ADMM.solveStep, h2]

lemma solveLoop_fst : ∀ (n : Nat) (d : ADMM V),
    (ADMM.solveLoop d n).1 = d.run n := by
  intro n
  induction n with
  | zero => intro d; rfl
  | succ n ih =>
    intro d
    show (ADMM.solveLoop d.solveStep.1 n).1 = d.step.run n
    rw [solveStep_fst, ih]

lemma solveLoop_snd_some : ∀ (n : Nat) (d : ADMM V) (cb : Iterate V → Bool),
    d.callback = some cb → (ADMM.solveLoop d n).2 = n := by
  intro n
  induction n with
  | zero => intro d cb _; rfl
  | succ n ih =>
    intro d cb h
    show d.solveStep.2 + (ADMM.solveLoop d.solveStep.1 n).2 = n + 1
    rw [solveStep_snd_some d h, solveStep_fst,
      ih d.step cb (by rw [step_callback, h])]
    omega

lemma step_withCallback (d : ADMM V) (cb : Option (Iterate V → Bool)) :
    (d.withCallback cb).step = d.step.withCallback cb := rfl

lemma run_withCallback : ∀ (n : Nat) (d : ADMM V)
    (cb : Option (Iterate V → Bool)),
    (d.withCallback cb).run n = (d.run n).withCallback cb := by
  intro n
  induction n with
  | zero => intro d cb; rfl
  | succ n ih =>
    intro d cb
    show (d.withCallback cb).step.run n = (d.step.run n).withCallback cb
    rw [step_withCallback, ih]

end ADMMLemmas

/-- C1: for every valid ADMM configuration and every `n ≥ 0`, calling
`step()` `n` times produces the same final state as a single `run(n)` that
loops internally, and the history after either path has exactly `n`
records. -/
theorem admm_step_iterate_eq_run {V : Type} [Add V] [Sub V] [Zero V]
    (c : Configuration V) (d : ADMM V) (n : Nat)
    (h : construct c = Except.ok d) :
    Nat.iterate ADMM.step n d = d.run n ∧
      (Nat.iterate ADMM.step n d).history.length = n ∧
      (d.run n).history.length = n := by
  have hd := construct_ok h
  have h1 : d.run n = Nat.iterate ADMM.step n d := run_eq_iterate n d
  have h2 : (d.run n).history.length = d.history.length + n :=
    run_history_length n d
  have h3 : d.history = [] := by rw [hd]; rfl
  refine ⟨h1.symm, ?_, ?_⟩
  · rw [← h1, h2, h3]; simp
  · rw [h2, h3]; simp

/-- Witness for C1 at the concrete configuration `wCfg` with `n = 2`. -/
theorem admm_step_iterate_eq_run_witness :
    Nat.iterate ADMM.step 2 wADMM = wADMM.run 2 ∧
      (Nat.iterate ADMM.step 2 wADMM).history.length = 2 ∧
      (wADMM.run 2).history.length = 2 :=
  admm_step_iterate_eq_run wCfg wADMM 2 rfl

/-- C2: for every valid configuration, constructing a driver with
`maxiter = 0` and calling `solve()` returns `x0` unchanged and leaves the
history empty. -/
theorem admm_maxiter_zero_roundtrip {V : Type} [Add V] [Sub V] [Zero V]
    (c : Configuration V) (d : ADMM V)
    (h : construct c = Except.ok d) (hm : c.maxiter = 0) :
    d.solveResult = c.x0 ∧ d.solveFull.1.history = [] := by
  have hd := construct_ok h
  subst hd
  unfold ADMM.solveResult ADMM.solveFull
  have hmax : (initialADMM c).maxiter = c.maxiter := rfl
  rw [hmax, hm]
  exact ⟨rfl, rfl⟩

/-- Witness for C2 at the concrete configuration `wCfg0`. -/
theorem admm_maxiter_zero_roundtrip_witness :
    wADMM0.solveResult = wCfg0.x0 ∧ wADMM0.solveFull.1.history = [] :=
  admm_maxiter_zero_roundtrip wCfg0 wADMM0 rfl rfl

/-- C3: on every valid configuration, `solve()` performs exactly `maxiter`
iterations; a provided callback is invoked once per iteration, and the
driver state `solve()` produces does not depend on the callback (its
return value never changes how `solve()` terminates). -/
theorem admm_solve_iteration_count_gate {V : Type} [Add V] [Sub V] [Zero V]
    (c : Configuration V) (d : ADMM V)
    (h : construct c = Except.ok d) :
    d.solveFull.1.iteration = c.maxiter ∧
      (∀ cb : Iterate V → Bool,
        d.callback = some cb → d.solveFull.2 = c.maxiter) ∧
      (∀ cb : Option (Iterate V → Bool),
        (d.withCallback cb).solveFull.1 = d.solveFull.1.withCallback cb) := by
  have hd := construct_ok h
  have hmax : d.maxiter = c.maxiter := by rw [hd]; rfl
  have hit : d.iteration = 0 := by rw [hd]; rfl
  refine ⟨?_, ?_, ?_⟩
  · show (ADMM.solveLoop d d.maxiter).1.iteration = c.maxiter
    rw [solveLoop_fst, run_iteration, hit, hmax]
    omega
  · intro cb hcb
    show (ADMM.solveLoop d d.maxiter).2 = c.maxiter
    rw [solveLoop_snd_some d.maxiter d cb hcb, hmax]
  · intro cb
    calc (d.withCallback cb).solveFull.1
        = (d.withCallback cb).run d.maxiter := by
          show (ADMM.solveLoop (d.withCallback cb)
            (d.withCallback cb).maxiter).1 = _
          rw [solveLoop_fst]
          rfl
      _ = (d.run d.maxiter).withCallback cb := run_withCallback _ _ _
      _ = d.solveFull.1.withCallback cb := by
          unfold ADMM.solveFull
          rw [solveLoop_fst]

/-- Witness for C3 at the concrete configuration `wCfg`. -/
theorem admm_solve_iteration_count_gate_witness :
    wADMM.solveFull.1.iteration = wCfg.maxiter ∧
      (∀ cb : Iterate ℚ → Bool,
        wADMM.callback = some cb → wADMM.solveFull.2 = wCfg.maxiter) ∧
      (∀ cb : Option (Iterate ℚ → Bool),
        (wADMM.withCallback cb).solveFull.1 =
          wADMM.solveFull.1.withCallback cb) :=
  admm_solve_iteration_count_gate wCfg wADMM rfl

/-- C4 (amended): construction raises a `ConfigurationError` if and only
if `len(constraint_blocks) < 1`, or `rho` (scalar or any per-block entry)
is not strictly positive, or the penalty is block-structured and the `x0`
shape does not match the `f` input domain; when it raises, no driver state
is produced. -/
theorem admm_construct_error_iff {V : Type} [Zero V] (c : Configuration V) :
    ((∃ e, construct c = Except.error e) ↔
      (c.blocks.length < 1 ∨ ¬ c.rho.positive ∨
        (c.rho.blockStructured = true ∧ c.x0Shape ≠ c.fDomainShape))) ∧
    (∀ e, construct c = Except.error e → ∀ d, construct c ≠ Except.ok d) := by
  constructor
  · unfold construct
    split
    · rename_i h1
      exact ⟨fun _ => Or.inl h1, fun _ => ⟨ConfigurationError.emptyBlocks, rfl⟩⟩
    · split
      · rename_i h1 h2
        exact ⟨fun _ => Or.inr (Or.inl h2),
          fun _ => ⟨ConfigurationError.nonPositiveRho, rfl⟩⟩
      · split
        · rename_i h1 h2 h3
          exact ⟨fun _ => Or.inr (Or.inr h3),
            fun _ => ⟨ConfigurationError.shapeMismatch, rfl⟩⟩
        · rename_i h1 h2 h3
          constructor
          · rintro ⟨e, he⟩
            exact Except.noConfusion he
          · rintro (hc | hc | hc)
            · exact absurd hc h1
            · exact absurd hc h2
            · exact absurd hc h3
  · intro e he d hd
    rw [he] at hd
    exact Except.noConfusion hd

/-- Counterexample to C4 as stated: at `c4Cfg` the penalty is a strictly
positive scalar, there is one constraint block, and the `x0` shape differs
from the `f` domain shape, yet construction succeeds — the claimed
"if and only if" fails in the direction `shape mismatch → error`. -/
theorem admm_construct_shape_mismatch_ok :
    (∃ d, construct c4Cfg = Except.ok d) ∧
      c4Cfg.x0Shape ≠ c4Cfg.fDomainShape ∧
      c4Cfg.rho.positive ∧
      ¬ c4Cfg.blocks.length < 1 :=
  ⟨⟨initialADMM c4Cfg, rfl⟩, by decide, by norm_num [c4Cfg, wCfg, Rho.positive],
    by decide⟩

/-- C5: immediately after construction with starting point `x0`, every
auxiliary variable satisfies `z_i = C_i x0` and every scaled dual variable
satisfies `u_i = 0`. -/
theorem admm_initializes_z_u {V : Type} [Zero V]
    (c : Configuration V) (d : ADMM V) (h : construct c = Except.ok d) :
    d.it.z = c.blocks.map (fun b => b.C.forward c.x0) ∧
      d.it.u = c.blocks.map (fun _ => (0 : V)) := by
  have hd := construct_ok h
  subst hd
  exact ⟨rfl, rfl⟩

/-- Witness for C5 at the concrete configuration `wCfg`. -/
theorem admm_initializes_z_u_witness :
    wADMM.it.z = wCfg.blocks.map (fun b => b.C.forward wCfg.x0) ∧
      wADMM.it.u = wCfg.blocks.map (fun _ => (0 : ℚ)) :=
  admm_initializes_z_u wCfg wADMM rfl

/-- C6: the iterate invariant
`len(z) == len(u) == len(constraint_operators) == len(penalty_functionals)`
holds after construction and is preserved by every `step()`. -/
theorem admm_length_invariant {V : Type} [Add V] [Sub V] [Zero V] :
    (∀ (c : Configuration V) (d : ADMM V),
      construct c = Except.ok d → d.lengthInvariant) ∧
    (∀ d : ADMM V, d.lengthInvariant → d.step.lengthInvariant) := by
  constructor
  · intro c d h
    have hd := construct_ok h
    subst hd
    simp [ADMM.lengthInvariant, initialADMM, ADMM.constraintOperators,
      ADMM.penaltyFunctionals]
  · intro d _
    simp [ADMM.lengthInvariant, ADMM.step, ADMM.constraintOperators,
      ADMM.penaltyFunctionals]

/-- C8: the subproblem-solver hierarchy is exactly the five variants
`Generic`, `Linear`, `CircularConvolve`, `FBlockCircularConvolve` and
`G0BlockCircularConvolve` under the shared `SubproblemSolver` base, all
publicly exported (as checked against `__all__` of
`src/scico/optimize/admm.py`) alongside `ADMM`; every solver carries the
single `solve(x_current, target_blocks, rho)` entry point by
construction. -/
theorem admm_export_surface :
    admm_all = "SubproblemSolver" ::
        (subproblemSolverKinds.map SubproblemSolverKind.exportName ++
          ["ADMM"]) ∧
      (∀ k : SubproblemSolverKind, k ∈ subproblemSolverKinds) ∧
      (∀ {V : Type} (s : SubproblemSolver V),
        s.kind ∈ subproblemSolverKinds) ∧
      (∀ k : SubproblemSolverKind, k.exportName ∈ admm_all) ∧
      "ADMM" ∈ admm_all := by
  refine ⟨rfl, ?_, ?_, ?_, ?_⟩
  · intro k
    cases k <;> simp [subproblemSolverKinds]
  · intro V s
    rcases s with ⟨k, f⟩
    cases k <;> simp [subproblemSolverKinds]
  · intro k
    cases k <;> decide
  · decide

namespace RadonAstra

lemma selectProjector_cpu (device : String) :
    selectProjector "cpu" device = Except.ok AstraProjectorKind.line := by
  simp [selectProjector]

/-- C9 (amended): when the default platform is `"cpu"`,
`TomographicProjector.__init__` selects the `"line"` projector for every
value of the `device` argument and never raises the invalid-device
`ValueError`; the invalid-device `ValueError` is raised exactly when the
platform is not `"cpu"`, the device is not `"cpu"`, and it is not the case
that the platform is `"gpu"` with device in `{"gpu", "auto"}`. -/
theorem radon_device_selection_amended :
    (∀ device : String,
      selectProjector "cpu" device = Except.ok AstraProjectorKind.line) ∧
      (∀ (input_shape : List Nat) (detector_spacing : ℚ) (det_count : Nat)
          (angles : List ℚ) (volume_geometry : Option (List ℚ))
          (device : String),
        isInvalidDeviceError (tomographicProjectorInit "cpu" input_shape
          detector_spacing det_count angles volume_geometry device) =
          false) ∧
      (∀ platform device : String,
        isInvalidDeviceError (selectProjector platform device) =
          decide (¬ (platform = "cpu" ∨ device = "cpu" ∨
            (platform = "gpu" ∧ (device = "gpu" ∨ device = "auto"))))) := by
  refine ⟨selectProjector_cpu, ?_, ?_⟩
  · intro input_shape detector_spacing det_count angles volume_geometry device
    rcases volume_geometry with _ | vg
    · simp [tomographicProjectorInit, volumeGeometryCheck,
        selectProjector_cpu, isInvalidDeviceError]
    · by_cases hl : vg.length = 4 <;>
        simp [tomographicProjectorInit, volumeGeometryCheck, hl,
          selectProjector_cpu, isInvalidDeviceError]
  · intro platform device
    by_cases h1 : platform = "cpu" ∨ device = "cpu"
    · rcases h1 with h | h <;>
        simp [selectProjector, h, isInvalidDeviceError]
    · by_cases h2 : platform = "gpu" ∧ (device = "gpu" ∨ device = "auto")
      · push_neg at h1
        simp [selectProjector, h1.1, h1.2, h2, isInvalidDeviceError]
      · push_neg at h1
        simp [selectProjector, h1.1, h1.2, h2, isInvalidDeviceError]

/-- Counterexample to C9 as stated: on a platform that is neither `"cpu"`
nor `"gpu"` (for example `"tpu"`), the invalid-device `ValueError` is
raised even though the platform is not `"gpu"`, refuting the claim that
the error occurs only when the default platform is `"gpu"`. -/
theorem radon_invalid_device_on_tpu :
    selectProjector "tpu" "auto" =
        Except.error (RadonError.invalidDevice "auto") ∧
      "tpu" ≠ "gpu" := by
  refine ⟨?_, by decide⟩
  simp [selectProjector]

/-- C10: every successfully constructed `TomographicProjector` declares
`output_shape = (len(angles), det_count)` and `float32` input and output
dtypes, for all values of `input_shape`, `volume_geometry` and `device`. -/
theorem radon_output_shape_and_dtype
    (platform : String) (input_shape : List Nat) (detector_spacing : ℚ)
    (det_count : Nat) (angles : List ℚ) (volume_geometry : Option (List ℚ))
    (device : String) (tp : TomographicProjector)
    (h : tomographicProjectorInit platform input_shape detector_spacing
      det_count angles volume_geometry device = Except.ok tp) :
    tp.output_shape = (angles.length, det_count) ∧
      tp.input_dtype = DType.float32 ∧ tp.output_dtype = DType.float32 := by
  unfold tomographicProjectorInit at h
  rcases hv : volumeGeometryCheck volume_geometry with e | u
  · rw [hv] at h
    exact Except.noConfusion h
  · rw [hv] at h
    rcases hs : selectProjector platform device with e | pk
    · rw [hs] at h
      exact Except.noConfusion h
    · rw [hs] at h
      have hrec := Except.ok.inj h
      subst hrec
      exact ⟨rfl, rfl, rfl⟩

/-- Witness for C10 at a concrete construction on the CPU platform. -/
theorem radon_output_shape_and_dtype_witness :
    tpW.output_shape = (3, 5) ∧
      tpW.input_dtype = DType.float32 ∧ tpW.output_dtype = DType.float32 :=
  radon_output_shape_and_dtype "cpu" [4, 4] 1 5 [0, 1, 2] none "auto" tpW rfl

end RadonAstra

namespace CircConv

variable {n : ℕ} [NeZero n] {R : Type} [Field R]

lemma dftE_cconv (e : ZMod n → R)
    (headd : ∀ a b : ZMod n, e (a + b) = e a * e b)
    (c x : ZMod n → R) (k : ZMod n) :
    dftE e (cconv c x) k = dftE e c k * dftE e x k := by
  unfold dftE cconv
  calc ∑ j : ZMod n, e (j * k) * ∑ m : ZMod n, c (j - m) * x m
      = ∑ j : ZMod n, ∑ m : ZMod n, e (j * k) * (c (j - m) * x m) := by
        refine Finset.sum_congr rfl fun j _ => ?_
        rw [Finset.mul_sum]
    _ = ∑ m : ZMod n, ∑ j : ZMod n, e (j * k) * (c (j - m) * x m) :=
        Finset.sum_comm
    _ = ∑ m : ZMod n, ∑ i : ZMod n, e ((i + m) * k) * (c i * x m) := by
        refine Finset.sum_congr rfl fun m _ => ?_
        rw [← Equiv.sum_comp (Equiv.addRight m)
          (fun j => e (j * k) * (c (j - m) * x m))]
        refine Finset.sum_congr rfl fun i _ => ?_
        simp [Equiv.coe_addRight, add_sub_cancel_right]
    _ = ∑ m : ZMod n, (e (m * k) * x m) * ∑ i : ZMod n, e (i * k) * c i := by
        refine Finset.sum_congr rfl fun m _ => ?_
        rw [Finset.mul_sum]
        refine Finset.sum_congr rfl fun i _ => ?_
        rw [add_mul, headd]
        ring
    _ = (∑ i : ZMod n, e (i * k) * c i) * ∑ m : ZMod n, e (m * k) * x m := by
        rw [← Finset.sum_mul, mul_comm]

lemma idftE_dftE (e : ZMod n → R) (ninv : R)
    (headd : ∀ a b : ZMod n, e (a + b) = e a * e b)
    (horth : ∀ s : ZMod n,
      ∑ j : ZMod n, e (s * j) = if s = 0 then (n : R) else 0)
    (hninv : (n : R) * ninv = 1)
    (Φ : ZMod n → R) : idftE e ninv (dftE e Φ) = Φ := by
  funext j
  unfold idftE dftE
  have key : ∑ k : ZMod n, e (-(j * k)) * ∑ i : ZMod n, e (i * k) * Φ i
      = (n : R) * Φ j := by
    calc ∑ k : ZMod n, e (-(j * k)) * ∑ i : ZMod n, e (i * k) * Φ i
        = ∑ k : ZMod n, ∑ i : ZMod n, e (-(j * k)) * (e (i * k) * Φ i) := by
          refine Finset.sum_congr rfl fun k _ => ?_
          rw [Finset.mul_sum]
      _ = ∑ i : ZMod n, ∑ k : ZMod n, e (-(j * k)) * (e (i * k) * Φ i) :=
          Finset.sum_comm
      _ = ∑ i : ZMod n, Φ i * ∑ k : ZMod n, e ((i - j) * k) := by
          refine Finset.sum_congr rfl fun i _ => ?_
          rw [Finset.mul_sum]
          refine Finset.sum_congr rfl fun k _ => ?_
          have h1 : e ((i - j) * k) = e (i * k) * e (-(j * k)) := by
            rw [← headd]
            congr 1
            ring
          rw [h1]
          ring
      _ = ∑ i : ZMod n, Φ i * (if i - j = 0 then (n : R) else 0) := by
          refine Finset.sum_congr rfl fun i _ => ?_
          rw [horth]
      _ = Φ j * (if j - j = 0 then (n : R) else 0) := by
          apply Finset.sum_eq_single j
          · intro b _ hb
            rw [if_neg fun h0 => hb (sub_eq_zero.mp h0), mul_zero]
          · intro hj
            exact absurd (Finset.mem_univ j) hj
      _ = (n : R) * Φ j := by simp [mul_comm]
  rw [key, ← mul_assoc, mul_comm ninv, hninv, one_mul]

lemma dftE_idftE (e : ZMod n → R) (ninv : R)
    (headd : ∀ a b : ZMod n, e (a + b) = e a * e b)
    (horth : ∀ s : ZMod n,
      ∑ j : ZMod n, e (s * j) = if s = 0 then (n : R) else 0)
    (hninv : (n : R) * ninv = 1)
    (Ψ : ZMod n → R) : dftE e (idftE e ninv Ψ) = Ψ := by
  funext k
  unfold dftE idftE
  have key : ∑ j : ZMod n, e (j * k) *
        (ninv * ∑ m : ZMod n, e (-(j * m)) * Ψ m)
      = ninv * ((n : R) * Ψ k) := by
    calc ∑ j : ZMod n, e (j * k) * (ninv * ∑ m : ZMod n, e (-(j * m)) * Ψ m)
        = ∑ j : ZMod n,
            ninv * ∑ m : ZMod n, e (j * k) * (e (-(j * m)) * Ψ m) := by
          refine Finset.sum_congr rfl fun j _ => ?_
          rw [mul_left_comm, Finset.mul_sum]
      _ = ninv * ∑ j : ZMod n, ∑ m : ZMod n,
            e (j * k) * (e (-(j * m)) * Ψ m) := by
          rw [Finset.mul_sum]
      _ = ninv * ∑ m : ZMod n, ∑ j : ZMod n,
            e (j * k) * (e (-(j * m)) * Ψ m) := by
          rw [Finset.sum_comm]
      _ = ninv * ∑ m : ZMod n, Ψ m * ∑ j : ZMod n, e ((k - m) * j) := by
          congr 1
          refine Finset.sum_congr rfl fun m _ => ?_
          rw [Finset.mul_sum]
          refine Finset.sum_congr rfl fun j _ => ?_
          have h1 : e ((k - m) * j) = e (j * k) * e (-(j * m)) := by
            rw [← headd]
            congr 1
            ring
          rw [h1]
          ring
      _ = ninv * ∑ m : ZMod n, Ψ m * (if k - m = 0 then (n : R) else 0) := by
          congr 1
          refine Finset.sum_congr rfl fun m _ => ?_
          rw [horth]
      _ = ninv * (Ψ k * (if k - k = 0 then (n : R) else 0)) := by
          congr 1
          apply Finset.sum_eq_single k
          · intro b _ hb
            rw [if_neg fun h0 => hb (sub_eq_zero.mp h0).symm, mul_zero]
          · intro hk
            exact absurd (Finset.mem_univ k) hk
      _ = ninv * ((n : R) * Ψ k) := by simp [mul_comm]
  rw [key, ← mul_assoc, mul_comm ninv, hninv, one_mul]

lemma dftE_injective (e : ZMod n → R) (ninv : R)
    (headd : ∀ a b : ZMod n, e (a + b) = e a * e b)
    (horth : ∀ s : ZMod n,
      ∑ j : ZMod n, e (s * j) = if s = 0 then (n : R) else 0)
    (hninv : (n : R) * ninv = 1)
    {Φ Ψ : ZMod n → R} (h : dftE e Φ = dftE e Ψ) : Φ = Ψ := by
  have h1 := idftE_dftE e ninv headd horth hninv Φ
  have h2 := idftE_dftE e ninv headd horth hninv Ψ
  rw [← h1, ← h2, h]

lemma dftE_combo (e : ZMod n → R) (a b : R) (f g : ZMod n → R) (k : ZMod n) :
    dftE e (fun j => a * f j + b * g j) k =
      a * dftE e f k + b * dftE e g k := by
  unfold dftE
  rw [Finset.mul_sum, Finset.mul_sum, ← Finset.sum_add_distrib]
  refine Finset.sum_congr rfl fun j _ => ?_
  ring

lemma circulant_mulVec (c x : ZMod n → R) :
    Matrix.mulVec (Matrix.circulant c) x = cconv c x := by
  funext j
  unfold cconv
  simp [Matrix.mulVec, Matrix.circulant_apply, Matrix.dotProduct]

lemma Amat_mulVec (alpha rho : R) (c x : ZMod n → R) :
    Matrix.mulVec (Amat alpha rho c) x =
      fun j => alpha * x j + rho * cconv (reverseKernel c) (cconv c x) j := by
  unfold Amat
  rw [Matrix.add_mulVec, Matrix.smul_mulVec_assoc, Matrix.one_mulVec,
    Matrix.smul_mulVec_assoc, ← Matrix.mulVec_mulVec,
    Matrix.transpose_circulant, circulant_mulVec, circulant_mulVec]
  funext j
  simp [Pi.add_apply, Pi.smul_apply, smul_eq_mul, reverseKernel, cconv]

lemma dftE_Amat (e : ZMod n → R)
    (headd : ∀ a b : ZMod n, e (a + b) = e a * e b)
    (alpha rho : R) (c x : ZMod n → R) (k : ZMod n) :
    dftE e (Matrix.mulVec (Amat alpha rho c) x) k =
      freqDiagonal e alpha rho c k * dftE e x k := by
  rw [Amat_mulVec]
  rw [dftE_combo e alpha rho x (cconv (reverseKernel c) (cconv c x)) k]
  rw [dftE_cconv e headd, dftE_cconv e headd]
  unfold freqDiagonal
  ring

lemma Amat_mulVec_freqSolve (e : ZMod n → R) (ninv : R)
    (headd : ∀ a b : ZMod n, e (a + b) = e a * e b)
    (horth : ∀ s : ZMod n,
      ∑ j : ZMod n, e (s * j) = if s = 0 then (n : R) else 0)
    (hninv : (n : R) * ninv = 1)
    (alpha rho : R) (c : ZMod n → R)
    (hdiag : ∀ k, freqDiagonal e alpha rho c k ≠ 0) (y : ZMod n → R) :
    Matrix.mulVec (Amat alpha rho c)
      (idftE e ninv
        (fun k => (freqDiagonal e alpha rho c k)⁻¹ * dftE e y k)) = y := by
  apply dftE_injective e ninv headd horth hninv
  funext k
  rw [dftE_Amat e headd]
  rw [dftE_idftE e ninv headd horth hninv]
  have hne : freqDiagonal e alpha rho c k ≠ 0 := hdiag k
  field_simp

lemma freqInverseMat_mulVec (e : ZMod n → R) (ninv : R)
    (headd : ∀ a b : ZMod n, e (a + b) = e a * e b)
    (horth : ∀ s : ZMod n,
      ∑ j : ZMod n, e (s * j) = if s = 0 then (n : R) else 0)
    (hninv : (n : R) * ninv = 1)
    (alpha rho : R) (c x : ZMod n → R) :
    Matrix.mulVec (freqInverseMat e ninv alpha rho c) x =
      idftE e ninv
        (fun k => (freqDiagonal e alpha rho c k)⁻¹ * dftE e x k) := by
  unfold freqInverseMat
  rw [circulant_mulVec]
  apply dftE_injective e ninv headd horth hninv
  funext k
  rw [dftE_cconv e headd, dftE_idftE e ninv headd horth hninv,
    dftE_idftE e ninv headd horth hninv]

lemma Amat_mul_freqInverse (e : ZMod n → R) (ninv : R)
    (headd : ∀ a b : ZMod n, e (a + b) = e a * e b)
    (horth : ∀ s : ZMod n,
      ∑ j : ZMod n, e (s * j) = if s = 0 then (n : R) else 0)
    (hninv : (n : R) * ninv = 1)
    (alpha rho : R) (c : ZMod n → R)
    (hdiag : ∀ k, freqDiagonal e alpha rho c k ≠ 0) :
    Amat alpha rho c * freqInverseMat e ninv alpha rho c = 1 := by
  have key : ∀ x : ZMod n → R,
      Matrix.mulVec (Amat alpha rho c * freqInverseMat e ninv alpha rho c) x
        = x := by
    intro x
    rw [← Matrix.mulVec_mulVec,
      freqInverseMat_mulVec e ninv headd horth hninv,
      Amat_mulVec_freqSolve e ninv headd horth hninv alpha rho c hdiag]
  ext i j
  have h := congrFun (key (Pi.single j 1)) i
  simp only [Matrix.mulVec_single, mul_one] at h
  rw [h, Matrix.one_apply, Pi.single_apply]

lemma Amat_det_ne_zero (e : ZMod n → R) (ninv : R)
    (headd : ∀ a b : ZMod n, e (a + b) = e a * e b)
    (horth : ∀ s : ZMod n,
      ∑ j : ZMod n, e (s * j) = if s = 0 then (n : R) else 0)
    (hninv : (n : R) * ninv = 1)
    (alpha rho : R) (c : ZMod n → R)
    (hdiag : ∀ k, freqDiagonal e alpha rho c k ≠ 0) :
    (Amat alpha rho c).det ≠ 0 := by
  intro h0
  have h1 := congrArg Matrix.det
    (Amat_mul_freqInverse e ninv headd horth hninv alpha rho c hdiag)
  rw [Matrix.det_mul, Matrix.det_one, h0, zero_mul] at h1
  exact zero_ne_one h1

lemma Amat_mulVec_injective (e : ZMod n → R) (ninv : R)
    (headd : ∀ a b : ZMod n, e (a + b) = e a * e b)
    (horth : ∀ s : ZMod n,
      ∑ j : ZMod n, e (s * j) = if s = 0 then (n : R) else 0)
    (hninv : (n : R) * ninv = 1)
    (alpha rho : R) (c : ZMod n → R)
    (hdiag : ∀ k, freqDiagonal e alpha rho c k ≠ 0)
    {x y : ZMod n → R}
    (hxy : Matrix.mulVec (Amat alpha rho c) x =
      Matrix.mulVec (Amat alpha rho c) y) : x = y := by
  apply dftE_injective e ninv headd horth hninv
  funext k
  have h := congrFun (congrArg (dftE e) hxy) k
  rw [dftE_Amat e headd, dftE_Amat e headd] at h
  exact mul_left_cancel₀ (hdiag k) h

/-- C7: for every circulant constraint operator and identical inputs, the
x-update computed by the `CircularConvolveSolver` (frequency-domain
divide) equals the x-update computed by the `Linear` direct-factorization
solver — in the exact-arithmetic model the agreement is exact, so the
frequency-domain shortcut is algebraically exact and any floating-point
tolerance is met.  Hypotheses: `e` is a homomorphic character satisfying
the orthogonality relations, `ninv` inverts `n`, and the frequency
diagonal never vanishes (else the direct solver fails with
`LinAlgError`). -/
theorem circular_convolve_solver_equals_linear_direct {n : ℕ} [NeZero n]
    {R : Type} [Field R] [DecidableEq R]
    (e : ZMod n → R) (ninv alpha rho : R) (c t : ZMod n → R)
    (headd : ∀ a b : ZMod n, e (a + b) = e a * e b)
    (horth : ∀ s : ZMod n,
      ∑ j : ZMod n, e (s * j) = if s = 0 then (n : R) else 0)
    (hninv : (n : R) * ninv = 1)
    (hdiag : ∀ k, freqDiagonal e alpha rho c k ≠ 0) :
    linearDirectSolve alpha rho c t =
      some (circularConvolveSolve e ninv alpha rho c t) := by
  have hdet :=
    Amat_det_ne_zero e ninv headd horth hninv alpha rho c hdiag
  unfold linearDirectSolve
  rw [if_neg hdet]
  congr 1
  apply Amat_mulVec_injective e ninv headd horth hninv alpha rho c hdiag
  rw [Matrix.mulVec_smul, Matrix.mulVec_cramer, smul_smul,
    inv_mul_cancel₀ hdet, one_smul]
  unfold circularConvolveSolve
  rw [Amat_mulVec_freqSolve e ninv headd horth hninv alpha rho c hdiag]

/-- Witness for C7 at the concrete instance `n = 4` over `ZMod 17` with
the primitive fourth root `4`, discharging every hypothesis by
computation. -/
theorem circular_convolve_solver_equals_linear_direct_witness :
    (∀ k, freqDiagonal wE 1 1 wC7c k ≠ 0) ∧
      linearDirectSolve 1 1 wC7c wC7t =
        some (circularConvolveSolve wE 13 1 1 wC7c wC7t) :=
  ⟨by decide,
    circular_convolve_solver_equals_linear_direct wE 13 1 1 wC7c wC7t
      (by decide) (by decide) (by decide) (by decide)⟩

end CircConv

end Scico
